import Mathlib

/-!
Verification development for the CSV-to-SQL record materializer
(`src/ETL.py` and its near-duplicate `src/Debugged.py`).

Modelling conventions:
* Python dictionaries are modelled as insertion-ordered association lists
  (`List (key × value)`); `alookup` is `d[k]` (returning `Option`).
* Python exceptions are modelled with `Except` / an `Option` error component.
* Value providers form a closed inductive type `Provider` (the five classes
  `ColumnValue`, `MultiColumnValue`, `ConstValue`, `DynamicValue`,
  `XReference`); their `_read` methods are the two evaluation functions
  `Provider.read` (ETL.py) and `Provider.readDebugged` (Debugged.py, which
  looks up the kwargs key "user_data.txt" in `XReference._read`).
* Opaque Python callables (`convert`, `generate`, `condition`) are modelled
  as Lean functions.
-/

namespace ETL

/-- Python runtime values that flow through the importer: strings read from
the CSV, converted values, condition results. -/
inductive PyVal where
  | str (s : String)
  | int (n : Int)
  | bool (b : Bool)
  | none
deriving DecidableEq

/-- One CSV row as produced by `csv.DictReader`: a mapping from column name
to raw text value. -/
abbrev Row := List (String × String)

/-- A `(table_name, instance_name)` pair: the key of the flattened spec
dictionary and of the per-row sibling map. -/
abbrev Node := String × String

/-- Python dict lookup `d[k]`, returning `Option.none` where Python raises
`KeyError`.  Keys are unique in every dict this development models, so
first-match lookup agrees with Python semantics. -/
def alookup {α β : Type} [DecidableEq α] : List (α × β) → α → Option β
  | [], _ => Option.none
  | (k, v) :: rest, key => if k = key then some v else alookup rest key

/-- Python `KeyError`, carrying the missing key (either a plain string key
or a `(table, instance)` path). -/
inductive EvalError where
  | keyError (key : String)
  | pathKeyError (key : Node)
deriving DecidableEq

/-- `DbRecord.__init__` state: `table_name`, `row_id`, and the `attributes`
dict (empty at construction). -/
structure DbRecord where
  table_name : String
  row_id : PyVal
  attributes : List (String × PyVal)
deriving DecidableEq

/-- The closed set of value-provider classes of ETL.py. -/
inductive Provider where
  | columnValue (col_name : String) (convert : Option (String → PyVal))
  | multiColumnValue (col_names : List String) (convert : List (String × String) → PyVal)
  | constValue (value : PyVal)
  | dynamicValue (generate : Row → PyVal)
  | xreference (table_name inst_name attribute_name : String)

/-- The dict comprehension `{key: row[key] for key in self.col_names}` in
`MultiColumnValue._read`. -/
def readCols : List String → Row → Except EvalError (List (String × String))
  | [], _ => .ok []
  | c :: cs, row =>
    match alookup row c with
    | Option.none => .error (.keyError c)
    | some v =>
      match readCols cs row with
      | .ok rest => .ok ((c, v) :: rest)
      | .error e => .error e

/-- `_read(row, **kw_args)` of each provider class in ETL.py.  A CSV cell is
a raw string, so an unconverted `ColumnValue` yields `PyVal.str`;
`XReference._read` reads `kw_args['existing_records']`, looks up the
`(table, instance)` path in the sibling map and then the attribute in the
sibling record's attributes dict. -/
def Provider.read (p : Provider) (row : Row) (existing_records : List (Node × DbRecord)) :
    Except EvalError PyVal :=
  match p with
  | .columnValue col conv =>
    match alookup row col with
    | Option.none => .error (.keyError col)
    | some v => .ok (match conv with | Option.none => PyVal.str v | some f => f v)
  | .multiColumnValue cols conv =>
    match readCols cols row with
    | .ok vals => .ok (conv vals)
    | .error e => .error e
  | .constValue v => .ok v
  | .dynamicValue g => .ok (g row)
  | .xreference t i a =>
    match alookup existing_records (t, i) with
    | Option.none => .error (.pathKeyError (t, i))
    | some rec =>
      match alookup rec.attributes a with
      | Option.none => .error (.keyError a)
      | some v => .ok v

/-- `_read` of Debugged.py.  The only difference from ETL.py is in
`XReference._read`, which evaluates `kw_args['user_data.txt']` although the
caller passes the sibling map under the keyword `existing_records`; that
lookup raises `KeyError('user_data.txt')` unconditionally. -/
def Provider.readDebugged (p : Provider) (row : Row)
    (existing_records : List (Node × DbRecord)) : Except EvalError PyVal :=
  match p with
  | .xreference _ _ _ => .error (.keyError "user_data.txt")
  | q => q.read row existing_records

/-- Python `dict.update`: existing keys are overwritten in place, fresh keys
are appended in order. -/
def dictUpdate {α β : Type} [DecidableEq α] (old upd : List (α × β)) : List (α × β) :=
  old.map (fun kv =>
    match alookup upd kv.1 with
    | some v => (kv.1, v)
    | Option.none => kv) ++
  upd.filter (fun kv => (alookup old kv.1).isNone)

/-- The dict comprehension
`{k: v._read(row, existing_records=existing_records) for (k, v) in attr_map.iteritems()}`:
providers are evaluated left to right and the first exception aborts the
whole comprehension before anything is stored. -/
def evalAttrs : List (String × Provider) → Row → List (Node × DbRecord) →
    Except EvalError (List (String × PyVal))
  | [], _, _ => .ok []
  | (k, p) :: rest, row, existing =>
    match p.read row existing with
    | .ok v =>
      match evalAttrs rest row existing with
      | .ok vs => .ok ((k, v) :: vs)
      | .error e => .error e
    | .error e => .error e

/-- `DbRecord.import_attributes` of ETL.py: build the `imported` dict first,
then `self.attributes.update(imported)`.  The mutation is modelled by
returning the updated record; when a provider raises, the record is returned
unchanged together with the propagating error.  (The `except AttributeError`
branch of the source probes for objects lacking `_read`; in this closed
model every provider has an evaluation method, so that branch is
unreachable.) -/
def DbRecord.import_attributes (rec : DbRecord) (attr_map : List (String × Provider))
    (existing_records : List (Node × DbRecord)) (row : Row) : DbRecord × Option EvalError :=
  match evalAttrs attr_map row existing_records with
  | .ok imported => ({ rec with attributes := dictUpdate rec.attributes imported }, Option.none)
  | .error e => (rec, some e)

/-- `RecordSpec`: the attribute map and the row condition (default
always-`True`, as in the source constructor). -/
structure RecordSpec where
  attr_map : List (String × Provider)
  condition : Row → PyVal := fun _ => PyVal.bool true

/-- One iteration of the loop body of `CsvImporter._records_for_row`
(ETL.py lines 48-58): skip the spec when `spec.condition(row) is False`,
otherwise create a fresh `DbRecord`, run `import_attributes` against the
current sibling map, append the record to the result list and register it in
the sibling map under `(table, instance)`. -/
def processSpec (row : Row) (row_id : PyVal)
    (st : List DbRecord × List (Node × DbRecord))
    (tis : String × String × RecordSpec) :
    Except EvalError (List DbRecord × List (Node × DbRecord)) :=
  if tis.2.2.condition row = PyVal.bool false then .ok st
  else
    match DbRecord.import_attributes ⟨tis.1, row_id, []⟩ tis.2.2.attr_map st.2 row with
    | (record, Option.none) =>
      .ok (st.1 ++ [record], st.2 ++ [((tis.1, tis.2.1), record)])
    | (_, some e) => .error e

/-- The loop of `CsvImporter._records_for_row`, threading the accumulated
record list and the per-row sibling map (`xref_map`) through the ordered
spec list. -/
def runSpecs : List (String × String × RecordSpec) → Row → PyVal →
    (List DbRecord × List (Node × DbRecord)) →
    Except EvalError (List DbRecord × List (Node × DbRecord))
  | [], _, _, st => .ok st
  | tis :: rest, row, rid, st =>
    match processSpec row rid st tis with
    | .ok st' => runSpecs rest row rid st'
    | .error e => .error e

/-- `CsvImporter._records_for_row`: a fresh empty sibling map per row; the
returned value is the accumulated record list. -/
def records_for_row (specs : List (String × String × RecordSpec)) (row : Row)
    (row_id : PyVal) : Except EvalError (List DbRecord) :=
  match runSpecs specs row row_id ([], []) with
  | .ok st => .ok st.1
  | .error e => .error e

/-- The dependency graph handed to `_toposort`: a dict from
`(table, instance)` node to its list of referenced nodes (a Python `set`;
only membership and emptiness matter, so a list is an equivalent model). -/
abbrev DepGraph := List (Node × List Node)

/-- The key set of a dependency graph. -/
def keysOf (g : DepGraph) : List Node := g.map (·.1)

/-- `for k, v in data.items(): v.discard(k)` — drop self-dependencies. -/
def discardSelf (g : DepGraph) : DepGraph :=
  g.map (fun kv => (kv.1, kv.2.filter (fun d => d ≠ kv.1)))

/-- `reduce(set.union, data.itervalues())`: the union of all dependency
sets. -/
def allDeps (g : DepGraph) : List Node := g.flatMap (·.2)

/-- `reduce(set.union, data.itervalues()) - set(data.iterkeys())`: nodes
mentioned as dependencies but absent as keys. -/
def extraItems (g : DepGraph) : List Node :=
  ((allDeps g).filter (fun d => d ∉ keysOf g)).dedup

/-- `data.update({item: set() for item in extra_items_in_deps})`. -/
def addExtras (g : DepGraph) : DepGraph :=
  g ++ (extraItems g).map (fun n => (n, []))

/-- `ordered = set(item for item, dep in data.iteritems() if not dep)`: one
topological layer. -/
def layerOf (g : DepGraph) : List Node :=
  (g.filter (fun kv => kv.2.isEmpty)).map (·.1)

/-- `data = {item: (dep - ordered) for item, dep in data.iteritems() if item not in ordered}`. -/
def nextGraph (g : DepGraph) : DepGraph :=
  (g.filter (fun kv => !(kv.2.isEmpty))).map
    (fun kv => (kv.1, kv.2.filter (fun d => d ∉ layerOf g)))

/-- The two fatal outcomes of `_toposort`: the `TypeError` raised by
`reduce` on an empty dependency map, and the `assert not data` failure
carrying the remaining (cyclic) part of the graph. -/
inductive TopoError where
  | emptyReduce
  | cyclic (remainder : DepGraph)
deriving DecidableEq

lemma length_filter_lt_of_exists_not {α : Type} (p : α → Bool) :
    ∀ l : List α, (∃ x ∈ l, ¬ p x = true) → (l.filter p).length < l.length
  | [], h => by simp at h
  | a :: l, h => by
    rcases h with ⟨x, hx, hpx⟩
    rcases List.mem_cons.mp hx with rfl | hxl
    · simp only [List.filter_cons]
      rw [if_neg hpx]
      exact Nat.lt_succ_of_le (List.length_filter_le p l)
    · simp only [List.filter_cons]
      by_cases ha : p a = true
      · rw [if_pos ha]
        simpa using length_filter_lt_of_exists_not p l ⟨x, hxl, hpx⟩
      · rw [if_neg ha]
        exact Nat.lt_succ_of_le (Nat.le_of_lt (length_filter_lt_of_exists_not p l ⟨x, hxl, hpx⟩))

lemma nextGraph_length_lt (g : DepGraph) (h : ¬ (layerOf g).isEmpty = true) :
    (nextGraph g).length < g.length := by
  have hne : ∃ kv ∈ g, ¬ (!(kv.2.isEmpty)) = true := by
    rcases List.exists_mem_of_ne_nil _ (by simpa [layerOf, List.isEmpty_iff] using h :
        (g.filter (fun kv => kv.2.isEmpty)) ≠ []) with ⟨kv, hkv⟩
    exact ⟨kv, (List.mem_filter.mp hkv).1, by simp [(List.mem_filter.mp hkv).2]⟩
  simpa [nextGraph] using length_filter_lt_of_exists_not _ g hne

/-- The `while True` loop of `_toposort` plus the final
`assert not data, "Cyclic dependencies: ..."`: yield the layer of nodes with
no remaining dependencies, remove it from the rest, and repeat; when no
layer can be extracted, succeed if the graph is exhausted and otherwise fail
with the remaining (cyclic) part.  The generator's yields are returned
flattened, in yield order, as consumed by the importer.  The recursion is
paced by a fuel argument; `nextGraph_length_lt` shows every iteration
strictly shrinks the graph, so fuel `g.length` (as supplied by `topoLoop`)
always suffices and the fuel-exhausted branch repeats the loop-exit
behaviour only for the already-empty graph. -/
def topoLoopF : Nat → DepGraph → Except TopoError (List Node)
  | 0, g => if g.isEmpty then .ok [] else .error (.cyclic g)
  | fuel + 1, g =>
    if (layerOf g).isEmpty then
      if g.isEmpty then .ok [] else .error (.cyclic g)
    else
      match topoLoopF fuel (nextGraph g) with
      | .ok rest => .ok (layerOf g ++ rest)
      | .error e => .error e

/-- The `_toposort` loop at its natural fuel. -/
def topoLoop (g : DepGraph) : Except TopoError (List Node) := topoLoopF g.length g

/-- `_toposort(data)` as forced by the importer's list comprehension.  On an
empty graph, Python 2's `reduce` with no initial value raises `TypeError`
before anything is yielded. -/
def toposort (g : DepGraph) : Except TopoError (List Node) :=
  if g.isEmpty then .error .emptyReduce
  else topoLoop (addExtras (discardSelf g))

/-- Flattening of the nested spec dict of `CsvImporter.__init__`:
`{(t, i): s for ...}` over all tables. -/
def flattenSpecs (specsIn : List (String × List (String × RecordSpec))) :
    List (Node × RecordSpec) :=
  specsIn.flatMap (fun ts => ts.2.map (fun ispec => ((ts.1, ispec.1), ispec.2)))

/-- The dependency set of one spec: the `(table, instance)` targets of its
`XReference` providers (a Python set literal, hence deduplicated). -/
def xrefDeps (attr_map : List (String × Provider)) : List Node :=
  (attr_map.filterMap (fun kp =>
    match kp.2 with
    | .xreference t i _ => some (t, i)
    | _ => Option.none)).dedup

/-- `dependency_map` of `CsvImporter.__init__`. -/
def dependencyMap (flat : List (Node × RecordSpec)) : DepGraph :=
  flat.map (fun ks => (ks.1, xrefDeps ks.2.attr_map))

/-- Fatal outcomes of `CsvImporter.__init__`: a `_toposort` failure, the
uncaught `KeyError` of ETL.py line 31, or the caught-and-reported missing
spec of Debugged.py lines 34-37 (whose message names the missing pair's own
instance and table). -/
inductive CtorError where
  | topo (e : TopoError)
  | keyError (k : Node)
  | missingSpec (missingInst missingTable : String)
deriving DecidableEq

/-- The comprehension `[(t, i, flat_specs[(t, i)]) for (t, i) in sorted_keys]`:
attach each sorted key's spec, failing at the first key with no declared
spec (`mkErr` distinguishes the two files' failure behaviour). -/
def attachSpecs (mkErr : Node → CtorError) (flat : List (Node × RecordSpec)) :
    List Node → Except CtorError (List (String × String × RecordSpec))
  | [] => .ok []
  | k :: rest =>
    match alookup flat k with
    | some s =>
      match attachSpecs mkErr flat rest with
      | .ok l => .ok ((k.1, k.2, s) :: l)
      | .error e => .error e
    | Option.none => .error (mkErr k)

/-- `CsvImporter.__init__` of ETL.py (lines 15-31): flatten the nested spec
dict, build the dependency map, topologically sort it, and attach the specs;
a sorted key with no declared spec raises an uncaught `KeyError`. -/
def csvImporterSpecs (specsIn : List (String × List (String × RecordSpec))) :
    Except CtorError (List (String × String × RecordSpec)) :=
  let flat := flattenSpecs specsIn
  match toposort (dependencyMap flat) with
  | .ok sortedKeys => attachSpecs (fun k => .keyError k) flat sortedKeys
  | .error e => .error (.topo e)

/-- `CsvImporter.__init__` of Debugged.py (lines 16-37): as in ETL.py, but
the `KeyError` is caught and reported as
`'Could not find specification for "{i}" in table "{t}"'` with `(t, i)` the
missing key itself, followed by `exit(-1)`. -/
def csvImporterSpecsDebugged (specsIn : List (String × List (String × RecordSpec))) :
    Except CtorError (List (String × String × RecordSpec)) :=
  let flat := flattenSpecs specsIn
  match toposort (dependencyMap flat) with
  | .ok sortedKeys => attachSpecs (fun k => .missingSpec k.2 k.1) flat sortedKeys
  | .error e => .error (.topo e)

/-- The SQL keyword/function allow-list used by the unquoted-text
heuristic. -/
def sql_fun : List String :=
  ["true", "false", "avg", "count", "first", "last", "max", "min",
   "sum", "ucase", "lcase", "mid", "len", "round", "now", "format"]

/-- Case-insensitive test that `s` starts with the (lowercase ASCII) token
`t`, as performed by the regex alternatives under `re.IGNORECASE`. -/
def ciStartsWith : List Char → List Char → Bool
  | [], _ => true
  | _ :: _, [] => false
  | t :: ts, c :: cs => (c == t || (c.isUpper && c.toNat + 32 == t.toNat)) && ciStartsWith ts cs

/-- The `["\']` alternative of the lookahead: the value starts with a quote
character. -/
def startsQuote : List Char → Bool
  | [] => false
  | c :: _ => c == '"' || c == '\''

/-- The `.*[a-z]` part of `string_exp` under `re.IGNORECASE`: `.` matches
any character except a newline, and the character class `[a-z]` matches
ASCII letters of either case because of the `IGNORECASE` flag. -/
def dotStarLetter : List Char → Bool
  | [] => false
  | c :: cs => if c = '\n' then false else if c.isAlpha then true else dotStarLetter cs

/-- `string_exp.match(value)` (ETL.py lines 8-11): the anchored pattern
`^(?!["\']|true|false|...|format).*[a-z]` compiled with `re.IGNORECASE`. -/
def string_exp_match (s : String) : Bool :=
  !(startsQuote s.data) && !(sql_fun.any (fun t => ciStartsWith t.data s.data)) &&
    dotStarLetter s.data

/-- Fatal outcome of `insert_statement`: one or more attribute values failed
the `isinstance(v, str)` check; all offenders are reported before
`exit(-1)`. -/
inductive InsertError where
  | nonStringValues (offenders : List (String × PyVal))
deriving DecidableEq

/-- `isinstance(v, str)`. -/
def isStrVal : PyVal → Bool
  | .str _ => true
  | _ => false

/-- The string payload of a value; only consulted after the sanity check has
established that every value is a string. -/
def strVal : PyVal → String
  | .str s => s
  | _ => ""

/-- `DbRecord.insert_statement` (ETL.py lines 138-159): assemble the column
list, run the sanity checks (fatal for non-string values, a logged warning
for values matching `string_exp`), and on success return the statement
`'INSERT INTO ' + table + ' (keys)' + ' VALUES' + ' (values)' + ';\n'`.
The non-fatal warnings are returned alongside the statement. -/
def DbRecord.insert_statement (rec : DbRecord) :
    Except InsertError (List (String × String) × String) :=
  let col := " (" ++ String.intercalate ", " (rec.attributes.map (·.1)) ++ ")"
  let offenders := rec.attributes.filter (fun kv => !(isStrVal kv.2))
  let warnings := rec.attributes.filterMap (fun kv =>
    match kv.2 with
    | PyVal.str s => if string_exp_match s then some (kv.1, s) else Option.none
    | _ => Option.none)
  if offenders.isEmpty then
    let val := " (" ++ String.intercalate ", " (rec.attributes.map (fun kv => strVal kv.2)) ++ ")"
    .ok (warnings, "INSERT INTO " ++ rec.table_name ++ col ++ " VALUES" ++ val ++ ";\n")
  else .error (.nonStringValues offenders)

/-! ### The §8 scenario of the specification -/

/-- Decimal digit accumulator used to model Python's `int` on a digit
string. -/
def digitsToNat : List Char → Nat → Nat
  | [], acc => acc
  | c :: cs, acc => digitsToNat cs (acc * 10 + (c.toNat - 48))

/-- Modelled from the spec: the `int_as_str` conversion of the §8 scenario
(`str(int(x))`); it is referenced by the scenario but not defined in src. -/
def int_as_str : String → PyVal := fun s => PyVal.str (toString (digitsToNat s.data 0))

/-- The scenario row `{name: "Alice", age: "30"}`. -/
def scenarioRow : Row := [("name", "Alice"), ("age", "30")]

/-- The scenario `Person` spec
`{id: ConstValue("1"), name: ColumnValue("name"), age: ColumnValue("age", convert=int_as_str)}`. -/
def personSpec : RecordSpec :=
  { attr_map := [("id", .constValue (.str "1")),
                 ("name", .columnValue "name" Option.none),
                 ("age", .columnValue "age" (some int_as_str))] }

/-- The scenario `Order` spec with
`customer_id = XReference("Person", "p1", "id")`. -/
def orderSpec : RecordSpec :=
  { attr_map := [("customer_id", .xreference "Person" "p1" "id")] }

/-- The scenario specification set: table `Person` with instance `p1`,
table `Order` with instance `o1`. -/
def demoSpecs : List (String × List (String × RecordSpec)) :=
  [("Person", [("p1", personSpec)]), ("Order", [("o1", orderSpec)])]

/-- The ordered spec list the importer computes for `demoSpecs`. -/
def demoOrderedSpecs : List (String × String × RecordSpec) :=
  [("Person", "p1", personSpec), ("Order", "o1", orderSpec)]

/-- The `Person` record materialized from the scenario row (row id 0). -/
def personRec : DbRecord :=
  ⟨"Person", PyVal.int 0,
   [("id", .str "1"), ("name", .str "Alice"), ("age", .str "30")]⟩

/-! ### Association-list lemmas -/

section AlookupLemmas

variable {α β : Type} [DecidableEq α]

lemma alookup_isSome_iff : ∀ (l : List (α × β)) (k : α),
    (alookup l k).isSome = true ↔ k ∈ l.map (·.1)
  | [], k => by simp [alookup]
  | (a, b) :: rest, k => by
    by_cases h : a = k
    · subst h; simp [alookup]
    · simp only [alookup, if_neg h, List.map_cons, List.mem_cons]
      rw [alookup_isSome_iff rest k]
      simp [Ne.symm h]

lemma alookup_eq_none_iff (l : List (α × β)) (k : α) :
    alookup l k = Option.none ↔ k ∉ l.map (·.1) := by
  rw [← alookup_isSome_iff l k]
  cases alookup l k <;> simp

lemma alookup_mem : ∀ (l : List (α × β)) (k : α) (v : β),
    alookup l k = some v → (k, v) ∈ l
  | [], k, v => by simp [alookup]
  | (a, b) :: rest, k, v => by
    intro hv
    by_cases h : a = k
    · subst h
      rw [alookup, if_pos rfl] at hv
      injection hv with hv
      subst hv
      exact List.mem_cons_self _ _
    · rw [alookup, if_neg h] at hv
      exact List.mem_cons_of_mem _ (alookup_mem rest k v hv)

lemma alookup_of_mem_nodup : ∀ (l : List (α × β)) (k : α) (v : β),
    (l.map (·.1)).Nodup → (k, v) ∈ l → alookup l k = some v
  | [], k, v => by simp
  | (a, b) :: rest, k, v => by
    intro hnd hmem
    simp only [List.map_cons, List.nodup_cons] at hnd
    rcases List.mem_cons.mp hmem with heq | hrest
    · cases heq
      simp [alookup]
    · have hak : a ≠ k := by
        rintro rfl
        exact hnd.1 (List.mem_map.mpr ⟨(a, v), hrest, rfl⟩)
      simp only [alookup, if_neg hak]
      exact alookup_of_mem_nodup rest k v hnd.2 hrest

lemma alookup_append_left : ∀ (l₁ l₂ : List (α × β)) (k : α),
    (alookup l₁ k).isSome = true → alookup (l₁ ++ l₂) k = alookup l₁ k
  | [], _, k => by simp [alookup]
  | (a, b) :: rest, l₂, k => by
    by_cases h : a = k
    · subst h; simp [alookup]
    · simp only [List.cons_append, alookup, if_neg h]
      exact alookup_append_left rest l₂ k

lemma alookup_append_right : ∀ (l₁ l₂ : List (α × β)) (k : α),
    alookup l₁ k = Option.none → alookup (l₁ ++ l₂) k = alookup l₂ k
  | [], _, k => by simp [alookup]
  | (a, b) :: rest, l₂, k => by
    by_cases h : a = k
    · subst h; simp [alookup]
    · simp only [List.cons_append, alookup, if_neg h]
      exact alookup_append_right rest l₂ k

/-- Distinct keys in a key-unique association list bind distinct values
uniquely. -/
lemma mem_keys_unique : ∀ (l : List (α × β)), (l.map (·.1)).Nodup →
    ∀ (a : α) (x y : β), (a, x) ∈ l → (a, y) ∈ l → x = y := by
  intro l hnd a x y hx hy
  have h1 := alookup_of_mem_nodup l a x hnd hx
  have h2 := alookup_of_mem_nodup l a y hnd hy
  rw [h1] at h2
  exact Option.some.inj h2

end AlookupLemmas

/-- A minimum of a `Nat`-valued image over a nonempty list. -/
lemma exists_min_image_list {α : Type} (f : α → Nat) :
    ∀ (l : List α), l ≠ [] → ∃ a ∈ l, ∀ b ∈ l, f a ≤ f b
  | [], h => absurd rfl h
  | [a], _ => ⟨a, List.mem_singleton_self a, by rintro b hb; rw [List.mem_singleton.mp hb]⟩
  | a :: b :: l, _ => by
    rcases exists_min_image_list f (b :: l) (by simp) with ⟨m, hm, hmin⟩
    by_cases h : f a ≤ f m
    · exact ⟨a, List.mem_cons_self a _, by
        rintro c hc
        rcases List.mem_cons.mp hc with rfl | hc
        · exact Nat.le_refl _
        · exact Nat.le_trans h (hmin c hc)⟩
    · exact ⟨m, List.mem_cons_of_mem a hm, by
        rintro c hc
        rcases List.mem_cons.mp hc with rfl | hc
        · exact Nat.le_of_lt (Nat.lt_of_not_le h)
        · exact hmin c hc⟩

/-! ### Dependency-graph lemmas -/

/-- One dependency edge of a graph: node `a` depends on node `b`. -/
def Edge (g : DepGraph) (a b : Node) : Prop := ∃ ds, (a, ds) ∈ g ∧ b ∈ ds

/-- Every dependency of every node is itself a key of the graph. -/
def ClosedG (g : DepGraph) : Prop := ∀ a b, Edge g a b → b ∈ keysOf g

lemma keysOf_discardSelf (g : DepGraph) : keysOf (discardSelf g) = keysOf g := by
  simp [keysOf, discardSelf, List.map_map, Function.comp]

lemma keysOf_addExtras (g : DepGraph) :
    keysOf (addExtras g) = keysOf g ++ extraItems g := by
  simp only [keysOf, addExtras, List.map_append, List.map_map]
  congr 1
  exact List.map_id _ ▸ rfl

lemma edge_discardSelf_iff (g : DepGraph) (a b : Node) :
    Edge (discardSelf g) a b ↔ Edge g a b ∧ b ≠ a := by
  constructor
  · rintro ⟨ds, hmem, hb⟩
    rcases List.mem_map.mp hmem with ⟨kv, hkv, heq⟩
    have h1 : kv.1 = a := congrArg Prod.fst heq
    have h2 : kv.2.filter (fun d => d ≠ kv.1) = ds := congrArg Prod.snd heq
    subst h1
    rw [← h2] at hb
    have := List.mem_filter.mp hb
    refine ⟨⟨kv.2, by simpa using hkv, this.1⟩, by simpa using this.2⟩
  · rintro ⟨⟨ds, hmem, hb⟩, hne⟩
    exact ⟨ds.filter (fun d => d ≠ a), List.mem_map.mpr ⟨(a, ds), hmem, rfl⟩,
      List.mem_filter.mpr ⟨hb, by simpa using hne⟩⟩

lemma edge_addExtras_iff (g : DepGraph) (a b : Node) :
    Edge (addExtras g) a b ↔ Edge g a b := by
  constructor
  · rintro ⟨ds, hmem, hb⟩
    rcases List.mem_append.mp hmem with h | h
    · exact ⟨ds, h, hb⟩
    · rcases List.mem_map.mp h with ⟨n, _, heq⟩
      have : ds = [] := (Prod.mk.injEq _ _ _ _ ▸ heq.symm).2.symm ▸ rfl
      subst this
      simp at hb
  · rintro ⟨ds, hmem, hb⟩
    exact ⟨ds, List.mem_append_left _ hmem, hb⟩

lemma nodup_keys_addExtras (g : DepGraph) (h : (keysOf g).Nodup) :
    (keysOf (addExtras g)).Nodup := by
  rw [keysOf_addExtras]
  refine List.Nodup.append h (List.nodup_dedup _) ?_
  intro x hx hx'
  have h2 := (List.mem_filter.mp (List.mem_dedup.mp hx')).2
  simp only [decide_not, Bool.not_eq_true', decide_eq_false_iff_not] at h2
  exact h2 hx

lemma closedG_addExtras (g : DepGraph) : ClosedG (addExtras g) := by
  rintro a b hedge
  rw [edge_addExtras_iff] at hedge
  rcases hedge with ⟨ds, hmem, hb⟩
  rw [keysOf_addExtras]
  by_cases h : b ∈ keysOf g
  · exact List.mem_append_left _ h
  · refine List.mem_append_right _ (List.mem_dedup.mpr (List.mem_filter.mpr ⟨?_, by simpa using h⟩))
    exact List.mem_flatMap.mpr ⟨(a, ds), hmem, hb⟩

lemma mem_layerOf_iff (g : DepGraph) (a : Node) :
    a ∈ layerOf g ↔ (a, ([] : List Node)) ∈ g := by
  constructor
  · intro h
    rcases List.mem_map.mp h with ⟨kv, hkv, heq⟩
    have h2 : kv.2 = [] := by
      have := (List.mem_filter.mp hkv).2
      simpa [List.isEmpty_iff] using this
    have : kv = (a, []) := by
      rcases kv with ⟨k1, k2⟩
      simp only at heq h2
      rw [heq, h2]
    rw [← this]
    exact (List.mem_filter.mp hkv).1
  · intro h
    exact List.mem_map.mpr ⟨(a, []), List.mem_filter.mpr ⟨h, by simp⟩, rfl⟩

lemma not_mem_layerOf (g : DepGraph) (hnd : (keysOf g).Nodup) (a : Node)
    (ds : List Node) (hmem : (a, ds) ∈ g) (hne : ds ≠ []) : a ∉ layerOf g := by
  intro hlay
  have h0 : (a, ([] : List Node)) ∈ g := (mem_layerOf_iff g a).mp hlay
  exact hne (mem_keys_unique g hnd a ds [] hmem h0)

lemma edge_nextGraph_of (g : DepGraph) (a b : Node) (ds : List Node)
    (hmem : (a, ds) ∈ g) (hne : ds ≠ []) (hb : b ∈ ds) (hbl : b ∉ layerOf g) :
    Edge (nextGraph g) a b := by
  refine ⟨ds.filter (fun d => d ∉ layerOf g),
    List.mem_map.mpr ⟨(a, ds), List.mem_filter.mpr ⟨hmem, by simpa [List.isEmpty_iff] using hne⟩, rfl⟩,
    List.mem_filter.mpr ⟨hb, by simpa using hbl⟩⟩

lemma edge_of_nextGraph (g : DepGraph) (a b : Node)
    (h : Edge (nextGraph g) a b) : Edge g a b ∧ b ∉ layerOf g := by
  rcases h with ⟨ds, hmem, hb⟩
  rcases List.mem_map.mp hmem with ⟨kv, hkv, heq⟩
  have h1 : kv.1 = a := congrArg Prod.fst heq
  have h2 : kv.2.filter (fun d => d ∉ layerOf g) = ds := congrArg Prod.snd heq
  subst h1
  rw [← h2] at hb
  have := List.mem_filter.mp hb
  exact ⟨⟨kv.2, (List.mem_filter.mp hkv).1, this.1⟩, by simpa using this.2⟩

lemma keysOf_nextGraph (g : DepGraph) :
    keysOf (nextGraph g) = (g.filter (fun kv => !(kv.2.isEmpty))).map (·.1) := by
  simp [keysOf, nextGraph, List.map_map, Function.comp]

lemma nodup_keys_nextGraph (g : DepGraph) (h : (keysOf g).Nodup) :
    (keysOf (nextGraph g)).Nodup := by
  rw [keysOf_nextGraph]
  exact List.Nodup.sublist (List.Sublist.map _ (List.filter_sublist g)) h

lemma mem_keys_nextGraph (g : DepGraph) (b : Node)
    (hb : b ∈ keysOf g) (hbl : b ∉ layerOf g) : b ∈ keysOf (nextGraph g) := by
  rcases List.mem_map.mp hb with ⟨kv, hkv, heq⟩
  have hne : kv.2 ≠ [] := by
    intro h0
    apply hbl
    rw [mem_layerOf_iff]
    have : kv = (b, []) := by
      rcases kv with ⟨k1, k2⟩
      simp only at heq h0
      rw [heq, h0]
    rw [← this]
    exact hkv
  rw [keysOf_nextGraph]
  exact List.mem_map.mpr ⟨kv,
    List.mem_filter.mpr ⟨hkv, by simpa [List.isEmpty_iff] using hne⟩, heq⟩

lemma closedG_nextGraph (g : DepGraph) (h : ClosedG g) : ClosedG (nextGraph g) := by
  intro a b hedge
  rcases edge_of_nextGraph g a b hedge with ⟨hE, hbl⟩
  exact mem_keys_nextGraph g b (h a b hE) hbl

/-! ### indexOf helpers -/

lemma indexOf_append_of_mem : ∀ (l₁ l₂ : List Node) (a : Node), a ∈ l₁ →
    (l₁ ++ l₂).indexOf a = l₁.indexOf a
  | [], _, a, h => by simp at h
  | b :: t, l₂, a, h => by
    by_cases hba : b = a
    · simp [List.indexOf_cons, hba]
    · rcases List.mem_cons.mp h with heq | ht
      · exact absurd heq.symm hba
      · simp [List.indexOf_cons, hba, indexOf_append_of_mem t l₂ a ht]

lemma indexOf_append_of_not_mem : ∀ (l₁ l₂ : List Node) (a : Node), a ∉ l₁ →
    (l₁ ++ l₂).indexOf a = l₁.length + l₂.indexOf a
  | [], _, a, _ => by simp
  | b :: t, l₂, a, h => by
    have hba : b ≠ a := fun heq => h (heq ▸ List.mem_cons_self b t)
    have hat : a ∉ t := fun ht => h (List.mem_cons_of_mem b ht)
    simp only [List.cons_append, List.indexOf_cons, cond_eq_if, beq_iff_eq, List.length_cons]
    rw [if_neg hba, indexOf_append_of_not_mem t l₂ a hat]
    omega

lemma indexOf_lt_length_of_mem : ∀ (l : List Node) (a : Node), a ∈ l →
    l.indexOf a < l.length
  | [], a, h => by simp at h
  | b :: t, a, h => by
    by_cases hba : b = a
    · simp [List.indexOf_cons, hba]
    · rcases List.mem_cons.mp h with heq | ht
      · exact absurd heq.symm hba
      · simp only [List.indexOf_cons, cond_eq_if, beq_iff_eq, List.length_cons]
        rw [if_neg hba]
        exact Nat.succ_lt_succ (indexOf_lt_length_of_mem t a ht)

/-! ### Behaviour of the `_toposort` loop -/

lemma topoLoopF_ok_perm : ∀ (fuel : Nat) (g : DepGraph) (l : List Node),
    g.length ≤ fuel → topoLoopF fuel g = .ok l → l.Perm (keysOf g)
  | 0, g, l => by
    intro hf h
    have hg : g = [] := List.length_eq_zero.mp (Nat.le_zero.mp hf)
    subst hg
    simp only [topoLoopF, List.isEmpty_nil, if_true] at h
    injection h with h
    subst h
    simp [keysOf]
  | fuel + 1, g, l => by
    intro hf h
    simp only [topoLoopF] at h
    by_cases hl : (layerOf g).isEmpty
    · rw [if_pos hl] at h
      by_cases hg : g.isEmpty
      · rw [if_pos hg] at h
        injection h with h
        subst h
        rw [List.isEmpty_iff] at hg
        subst hg
        simp [keysOf]
      · rw [if_neg hg] at h
        exact Except.noConfusion h
    · rw [if_neg hl] at h
      cases hrec : topoLoopF fuel (nextGraph g) with
      | error e =>
        rw [hrec] at h
        exact Except.noConfusion h
      | ok rest =>
        rw [hrec] at h
        injection h with h
        subst h
        have hlt := nextGraph_length_lt g hl
        have ih := topoLoopF_ok_perm fuel (nextGraph g) rest (by omega) hrec
        have hsplit : (layerOf g ++ keysOf (nextGraph g)).Perm (keysOf g) := by
          rw [keysOf_nextGraph]
          have hperm := (List.filter_append_perm (fun kv => kv.2.isEmpty) g).map (·.1)
          simpa [layerOf, keysOf, List.map_append] using hperm
        exact ((ih.append_left (layerOf g)).trans hsplit)

lemma topoLoopF_ok_indexOf : ∀ (fuel : Nat) (g : DepGraph) (l : List Node),
    g.length ≤ fuel → (keysOf g).Nodup → topoLoopF fuel g = .ok l →
    ∀ a b ds, (a, ds) ∈ g → b ∈ ds → b ≠ a → l.indexOf b < l.indexOf a
  | 0, g, l => by
    intro hf _ _ a b ds hmem _ _
    have hg : g = [] := List.length_eq_zero.mp (Nat.le_zero.mp hf)
    subst hg
    simp at hmem
  | fuel + 1, g, l => by
    intro hf hnd h a b ds hmem hb hne
    simp only [topoLoopF] at h
    by_cases hl : (layerOf g).isEmpty
    · rw [if_pos hl] at h
      by_cases hg : g.isEmpty
      · rw [List.isEmpty_iff] at hg
        subst hg
        simp at hmem
      · rw [if_neg hg] at h
        exact Except.noConfusion h
    · rw [if_neg hl] at h
      cases hrec : topoLoopF fuel (nextGraph g) with
      | error e =>
        rw [hrec] at h
        exact Except.noConfusion h
      | ok rest =>
        rw [hrec] at h
        injection h with h
        subst h
        have hlt := nextGraph_length_lt g hl
        have hdsne : ds ≠ [] := by rintro rfl; simp at hb
        have hanl : a ∉ layerOf g := not_mem_layerOf g hnd a ds hmem hdsne
        have hperm := topoLoopF_ok_perm fuel (nextGraph g) rest (by omega) hrec
        by_cases hbl : b ∈ layerOf g
        · have hib : (layerOf g ++ rest).indexOf b < (layerOf g).length := by
            rw [indexOf_append_of_mem _ _ _ hbl]
            exact indexOf_lt_length_of_mem _ _ hbl
          have hia : (layerOf g).length ≤ (layerOf g ++ rest).indexOf a := by
            rw [indexOf_append_of_not_mem _ _ _ hanl]
            exact Nat.le_add_right _ _
          omega
        · have hedge : Edge (nextGraph g) a b := edge_nextGraph_of g a b ds hmem hdsne hb hbl
          rcases hedge with ⟨ds', hmem', hb'⟩
          have ih := topoLoopF_ok_indexOf fuel (nextGraph g) rest (by omega)
            (nodup_keys_nextGraph g hnd) hrec a b ds' hmem' hb' hne
          rw [indexOf_append_of_not_mem _ _ _ hanl, indexOf_append_of_not_mem _ _ _ hbl]
          omega

lemma topoLoopF_ok_of_rank : ∀ (fuel : Nat) (g : DepGraph) (rank : Node → Nat),
    g.length ≤ fuel → ClosedG g → (∀ a b, Edge g a b → rank b < rank a) →
    ∃ l, topoLoopF fuel g = .ok l
  | 0, g, rank => by
    intro hf _ _
    have hg : g = [] := List.length_eq_zero.mp (Nat.le_zero.mp hf)
    subst hg
    exact ⟨[], rfl⟩
  | fuel + 1, g, rank => by
    intro hf hclosed hrank
    by_cases hl : (layerOf g).isEmpty
    · have hg : g = [] := by
        by_contra hgne
        have hkeysne : keysOf g ≠ [] := by
          simpa [keysOf] using hgne
        rcases exists_min_image_list rank (keysOf g) hkeysne with ⟨a, ha, hmin⟩
        rcases List.mem_map.mp ha with ⟨kv, hkv, heq⟩
        have hdsne : kv.2 ≠ [] := by
          intro h0
          have : kv.1 ∈ layerOf g := by
            rw [mem_layerOf_iff]
            have : kv = (kv.1, []) := by
              rcases kv with ⟨k1, k2⟩
              simp only at h0 ⊢
              rw [h0]
            rw [← this]
            exact hkv
          rw [List.isEmpty_iff] at hl
          rw [hl] at this
          simp at this
        rcases List.exists_mem_of_ne_nil kv.2 hdsne with ⟨b, hbmem⟩
        have hedge : Edge g kv.1 b := ⟨kv.2, by simpa using hkv, hbmem⟩
        have hblt : rank b < rank kv.1 := hrank _ _ hedge
        have hbk : b ∈ keysOf g := hclosed _ _ hedge
        have := hmin b hbk
        rw [heq] at hblt
        omega
      subst hg
      exact ⟨[], rfl⟩
    · have hlt := nextGraph_length_lt g hl
      have hnext := topoLoopF_ok_of_rank fuel (nextGraph g) rank (by omega)
        (closedG_nextGraph g hclosed)
        (fun a b hE => hrank a b (edge_of_nextGraph g a b hE).1)
      rcases hnext with ⟨rest, hrest⟩
      refine ⟨layerOf g ++ rest, ?_⟩
      simp only [topoLoopF, if_neg hl, hrest]

lemma topoLoopF_trapped : ∀ (fuel : Nat) (g : DepGraph) (S : List Node),
    g.length ≤ fuel → (keysOf g).Nodup → S ≠ [] →
    (∀ c ∈ S, ∃ c' ∈ S, Edge g c c') →
    ∃ r, topoLoopF fuel g = .error (.cyclic r) ∧ ∀ c ∈ S, c ∈ keysOf r
  | fuel, g, S => by
    intro hf hnd hSne htrap
    have hSkeys : ∀ c ∈ S, c ∈ keysOf g := by
      intro c hc
      rcases htrap c hc with ⟨c', _, ds, hmem, _⟩
      exact List.mem_map.mpr ⟨(c, ds), hmem, rfl⟩
    have hgne : g ≠ [] := by
      rcases List.exists_mem_of_ne_nil S hSne with ⟨c, hc⟩
      intro h0
      subst h0
      simpa [keysOf] using hSkeys c hc
    match fuel with
    | 0 =>
      exact absurd (List.length_eq_zero.mp (Nat.le_zero.mp hf)) hgne
    | fuel + 1 =>
      by_cases hl : (layerOf g).isEmpty
      · refine ⟨g, ?_, hSkeys⟩
        simp only [topoLoopF, if_pos hl,
          if_neg (by simpa [List.isEmpty_iff] using hgne : ¬ g.isEmpty = true)]
      · have hlt := nextGraph_length_lt g hl
        have hnotlay : ∀ c ∈ S, c ∉ layerOf g := by
          intro c hc
          rcases htrap c hc with ⟨c', _, ds, hmem, hds⟩
          exact not_mem_layerOf g hnd c ds hmem (by rintro rfl; simp at hds)
        have htrap' : ∀ c ∈ S, ∃ c' ∈ S, Edge (nextGraph g) c c' := by
          intro c hc
          rcases htrap c hc with ⟨c', hc', ds, hmem, hds⟩
          exact ⟨c', hc', edge_nextGraph_of g c c' ds hmem
            (by rintro rfl; simp at hds) hds (hnotlay c' hc')⟩
        rcases topoLoopF_trapped fuel (nextGraph g) S (by omega)
          (nodup_keys_nextGraph g hnd) hSne htrap' with ⟨r, hr, hrk⟩
        refine ⟨r, ?_, hrk⟩
        simp only [topoLoopF, if_neg hl, hr]

/-! ### From the importer constructor to the toposort graph -/

/-- The XReference dependency relation between declared specs, with
self-references removed (as `_toposort` discards them): spec `a` references
sibling `b`. -/
def SpecEdge (flat : List (Node × RecordSpec)) (a b : Node) : Prop :=
  b ≠ a ∧ ∃ s, (a, s) ∈ flat ∧ b ∈ xrefDeps s.attr_map

/-- Acyclicity of an edge relation, witnessed by a rank function strictly
decreasing along every edge; for the finite graphs of this development this
is equivalent to the absence of directed cycles. -/
def AcyclicRel (r : Node → Node → Prop) : Prop :=
  ∃ rank : Node → Nat, ∀ a b, r a b → rank b < rank a

lemma keysOf_dependencyMap (flat : List (Node × RecordSpec)) :
    keysOf (dependencyMap flat) = flat.map (·.1) := by
  simp [keysOf, dependencyMap, List.map_map, Function.comp]

lemma edge_dependencyMap_iff (flat : List (Node × RecordSpec)) (a b : Node) :
    Edge (dependencyMap flat) a b ↔ ∃ s, (a, s) ∈ flat ∧ b ∈ xrefDeps s.attr_map := by
  constructor
  · rintro ⟨ds, hmem, hb⟩
    rcases List.mem_map.mp hmem with ⟨ks, hks, heq⟩
    have h1 : ks.1 = a := congrArg Prod.fst heq
    have h2 : xrefDeps ks.2.attr_map = ds := congrArg Prod.snd heq
    subst h1
    exact ⟨ks.2, by simpa using hks, h2 ▸ hb⟩
  · rintro ⟨s, hmem, hb⟩
    exact ⟨xrefDeps s.attr_map, List.mem_map.mpr ⟨(a, s), hmem, rfl⟩, hb⟩

lemma specEdge_to_graph (flat : List (Node × RecordSpec)) (a b : Node)
    (h : SpecEdge flat a b) :
    Edge (addExtras (discardSelf (dependencyMap flat))) a b := by
  rcases h with ⟨hne, s, hmem, hdep⟩
  rw [edge_addExtras_iff, edge_discardSelf_iff, edge_dependencyMap_iff]
  exact ⟨⟨s, hmem, hdep⟩, hne⟩

lemma graph_edge_to_specEdge (flat : List (Node × RecordSpec)) (a b : Node)
    (h : Edge (addExtras (discardSelf (dependencyMap flat))) a b) :
    SpecEdge flat a b := by
  rw [edge_addExtras_iff, edge_discardSelf_iff, edge_dependencyMap_iff] at h
  exact ⟨h.2, h.1⟩

lemma mem_allDeps_discardSelf (flat : List (Node × RecordSpec)) (d : Node)
    (h : d ∈ allDeps (discardSelf (dependencyMap flat))) :
    ∃ ks ∈ flat, d ∈ xrefDeps ks.2.attr_map := by
  rcases List.mem_flatMap.mp h with ⟨kv, hkv, hdkv⟩
  rcases List.mem_map.mp hkv with ⟨kv0, hkv0, heq⟩
  have h2 : kv0.2.filter (fun x => x ≠ kv0.1) = kv.2 := congrArg Prod.snd heq
  rw [← h2] at hdkv
  have hd0 : d ∈ kv0.2 := (List.mem_filter.mp hdkv).1
  rcases List.mem_map.mp hkv0 with ⟨ks, hks, heq0⟩
  have h3 : xrefDeps ks.2.attr_map = kv0.2 := congrArg Prod.snd heq0
  exact ⟨ks, hks, h3 ▸ hd0⟩

lemma extraItems_discardSelf_eq_nil (flat : List (Node × RecordSpec))
    (hclosed : ∀ ks ∈ flat, ∀ d ∈ xrefDeps ks.2.attr_map, d ∈ flat.map (·.1)) :
    extraItems (discardSelf (dependencyMap flat)) = [] := by
  rw [extraItems]
  have hfil : (allDeps (discardSelf (dependencyMap flat))).filter
      (fun d => d ∉ keysOf (discardSelf (dependencyMap flat))) = [] := by
    rw [List.filter_eq_nil_iff]
    intro d hd
    rcases mem_allDeps_discardSelf flat d hd with ⟨ks, hks, hdep⟩
    have : d ∈ keysOf (discardSelf (dependencyMap flat)) := by
      rw [keysOf_discardSelf, keysOf_dependencyMap]
      exact hclosed ks hks d hdep
    simp [this]
  rw [hfil]
  rfl

lemma mem_extraItems_of_missing (flat : List (Node × RecordSpec))
    (ks : Node × RecordSpec) (hks : ks ∈ flat) (d : Node)
    (hd : d ∈ xrefDeps ks.2.attr_map) (hnotkey : d ∉ flat.map (·.1)) :
    d ∈ extraItems (discardSelf (dependencyMap flat)) := by
  have hne : d ≠ ks.1 := by
    rintro rfl
    exact hnotkey (List.mem_map.mpr ⟨ks, hks, rfl⟩)
  have hall : d ∈ allDeps (discardSelf (dependencyMap flat)) := by
    refine List.mem_flatMap.mpr ⟨(ks.1, (xrefDeps ks.2.attr_map).filter (fun x => x ≠ ks.1)), ?_, ?_⟩
    · exact List.mem_map.mpr ⟨(ks.1, xrefDeps ks.2.attr_map),
        List.mem_map.mpr ⟨ks, hks, rfl⟩, rfl⟩
    · exact List.mem_filter.mpr ⟨hd, by simpa using hne⟩
  refine List.mem_dedup.mpr (List.mem_filter.mpr ⟨hall, ?_⟩)
  rw [keysOf_discardSelf, keysOf_dependencyMap]
  simpa using hnotkey

lemma attachSpecs_ok (mkErr : Node → CtorError) (flat : List (Node × RecordSpec)) :
    ∀ (sortedKeys : List Node),
    (∀ k ∈ sortedKeys, (alookup flat k).isSome = true) →
    ∃ specs, attachSpecs mkErr flat sortedKeys = .ok specs ∧
      specs.map (fun t => (t.1, t.2.1)) = sortedKeys
  | [], _ => ⟨[], rfl, rfl⟩
  | k :: rest, h => by
    have hk := h k (List.mem_cons_self k rest)
    cases hs : alookup flat k with
    | none => rw [hs] at hk; simp at hk
    | some s =>
      rcases attachSpecs_ok mkErr flat rest
        (fun k' hk' => h k' (List.mem_cons_of_mem k hk')) with ⟨specs, hsp, hmap⟩
      refine ⟨(k.1, k.2, s) :: specs, ?_, ?_⟩
      · simp only [attachSpecs, hs, hsp]
      · simp [hmap]

lemma attachSpecs_error (mkErr : Node → CtorError) (flat : List (Node × RecordSpec)) :
    ∀ (sortedKeys : List Node),
    (∃ k ∈ sortedKeys, alookup flat k = Option.none) →
    ∃ k, attachSpecs mkErr flat sortedKeys = .error (mkErr k) ∧
      k ∈ sortedKeys ∧ alookup flat k = Option.none
  | [], h => by simp at h
  | k :: rest, h => by
    cases hs : alookup flat k with
    | none =>
      exact ⟨k, by simp only [attachSpecs, hs], List.mem_cons_self k rest, hs⟩
    | some s =>
      have hrest : ∃ k' ∈ rest, alookup flat k' = Option.none := by
        rcases h with ⟨k', hk', hn⟩
        rcases List.mem_cons.mp hk' with rfl | hm
        · rw [hs] at hn; exact Option.noConfusion hn
        · exact ⟨k', hm, hn⟩
      rcases attachSpecs_error mkErr flat rest hrest with ⟨k', hk', hm, hn⟩
      exact ⟨k', by simp only [attachSpecs, hs, hk'], List.mem_cons_of_mem k hm, hn⟩

/-- Every element of a nonempty chain (viewed from its head) has an edge
to some element of the chain. -/
lemma chain_succ {r : Node → Node → Prop} : ∀ (l : List Node), l ≠ [] →
    ∀ (a x : Node), List.Chain r a l → x ∈ a :: l.dropLast →
    ∃ y ∈ a :: l, r x y
  | [], h, _, _, _, _ => absurd rfl h
  | [b], _, a, x, hchain, hx => by
    rw [List.chain_cons] at hchain
    have hxa : x = a := by simpa using hx
    subst hxa
    exact ⟨b, List.mem_cons_of_mem x (List.mem_cons_self b []), hchain.1⟩
  | b :: c :: t, _, a, x, hchain, hx => by
    rw [List.chain_cons] at hchain
    rcases List.mem_cons.mp hx with rfl | hx'
    · exact ⟨b, List.mem_cons_of_mem x (List.mem_cons_self b _), hchain.1⟩
    · have hx'' : x ∈ b :: (c :: t).dropLast := by
        simpa [List.dropLast] using hx'
      rcases chain_succ (c :: t) (by simp) b x hchain.2 hx'' with ⟨y, hy, hr⟩
      exact ⟨y, List.mem_cons_of_mem a hy, hr⟩

/-- Every node of a cycle `n → cyc₀ → ... → n` has an edge to some node of
the cycle. -/
lemma cycle_trapped {r : Node → Node → Prop} (n : Node) (cyc : List Node)
    (hchain : List.Chain r n (cyc ++ [n])) :
    ∀ x ∈ n :: cyc, ∃ y ∈ n :: cyc, r x y := by
  intro x hx
  have hx' : x ∈ n :: (cyc ++ [n]).dropLast := by
    rwa [List.dropLast_concat]
  rcases chain_succ (cyc ++ [n]) (by simp) n x hchain hx' with ⟨y, hy, hr⟩
  refine ⟨y, ?_, hr⟩
  rcases List.mem_cons.mp hy with rfl | hy'
  · exact List.mem_cons_self y cyc
  · rcases List.mem_append.mp hy' with h | h
    · exact List.mem_cons_of_mem n h
    · rw [List.mem_singleton.mp h]
      exact List.mem_cons_self n cyc

/-! ### Claim theorems -/

/-- Claim C1, amended.  For every nonempty specification set whose
XReferences all target declared sibling specs and whose dependency graph
(after self-reference removal) is acyclic, the ordered spec list computed at
importer construction (`CsvImporter.__init__`, ETL.py lines 15-31, via
`_toposort`, lines 163-182) is a total order over all declared
`(table, instance)` keys — a permutation of the declared key set — in which,
for every XReference from spec `a` to sibling spec `b`, `b` appears strictly
before `a`.  (The original claim, quantifying over every acyclic
specification set, fails on the empty set, where Python 2's `reduce` raises
`TypeError`; see the counterexample.  Key uniqueness is inherited from the
Python dict the flattened specs live in.) -/
theorem c1_ordered_specs_topological
    (specsIn : List (String × List (String × RecordSpec)))
    (hne : flattenSpecs specsIn ≠ [])
    (hnd : ((flattenSpecs specsIn).map (·.1)).Nodup)
    (hclosed : ∀ ks ∈ flattenSpecs specsIn, ∀ d ∈ xrefDeps ks.2.attr_map,
      d ∈ (flattenSpecs specsIn).map (·.1))
    (hacyclic : AcyclicRel (SpecEdge (flattenSpecs specsIn))) :
    ∃ specs, csvImporterSpecs specsIn = .ok specs ∧
      (specs.map (fun t => (t.1, t.2.1))).Perm ((flattenSpecs specsIn).map (·.1)) ∧
      ∀ a b, SpecEdge (flattenSpecs specsIn) a b →
        (specs.map (fun t => (t.1, t.2.1))).indexOf b <
          (specs.map (fun t => (t.1, t.2.1))).indexOf a := by
  rcases hacyclic with ⟨rank, hrank⟩
  set flat := flattenSpecs specsIn with hflatdef
  set g := discardSelf (dependencyMap flat) with hgdef
  have hextras : extraItems g = [] := extraItems_discardSelf_eq_nil flat hclosed
  have hadd : addExtras g = g := by
    rw [addExtras, hextras]
    simp
  have hkeysg : keysOf g = flat.map (·.1) := by
    rw [hgdef, keysOf_discardSelf, keysOf_dependencyMap]
  have hndg : (keysOf g).Nodup := by rw [hkeysg]; exact hnd
  have hclosedg : ClosedG g := by
    have h0 := closedG_addExtras g
    rwa [hadd] at h0
  have hrankg : ∀ a b, Edge g a b → rank b < rank a := by
    intro a b hE
    refine hrank a b (graph_edge_to_specEdge flat a b ?_)
    rw [← hgdef, hadd]
    exact hE
  rcases topoLoopF_ok_of_rank g.length g rank (Nat.le_refl _) hclosedg hrankg with ⟨l, hl⟩
  have hperm : l.Perm (keysOf g) := topoLoopF_ok_perm g.length g l (Nat.le_refl _) hl
  have hdmne : ¬ (dependencyMap flat).isEmpty = true := by
    rw [List.isEmpty_iff]
    intro h0
    apply hne
    have hlen := congrArg List.length h0
    simp only [dependencyMap, List.length_map, List.length_nil] at hlen
    exact List.length_eq_zero.mp hlen
  have htopo : toposort (dependencyMap flat) = .ok l := by
    rw [toposort, if_neg hdmne, ← hgdef, hadd]
    exact hl
  have hall : ∀ k ∈ l, (alookup flat k).isSome = true := by
    intro k hk
    rw [alookup_isSome_iff]
    have hmem := hperm.mem_iff.mp hk
    rwa [hkeysg] at hmem
  rcases attachSpecs_ok (fun k => .keyError k) flat l hall with ⟨specs, hattach, hmap⟩
  refine ⟨specs, ?_, ?_, ?_⟩
  · simp only [csvImporterSpecs]
    rw [← hflatdef, htopo]
    exact hattach
  · rw [hmap, ← hkeysg]
    exact hperm
  · intro a b hSE
    rw [hmap]
    have hEg : Edge g a b := by
      have h0 := specEdge_to_graph flat a b hSE
      rwa [← hgdef, hadd] at h0
    rcases hEg with ⟨ds, hmem, hb⟩
    exact topoLoopF_ok_indexOf g.length g l (Nat.le_refl _) hndg hl a b ds hmem hb hSE.1

/-- Witness for C1 at the §8 scenario specification set: all hypotheses are
discharged concretely and the conclusion is obtained by applying the
theorem. -/
theorem c1_ordered_specs_topological_witness :
    ∃ specs, csvImporterSpecs demoSpecs = .ok specs ∧
      (specs.map (fun t => (t.1, t.2.1))).Perm ((flattenSpecs demoSpecs).map (·.1)) ∧
      ∀ a b, SpecEdge (flattenSpecs demoSpecs) a b →
        (specs.map (fun t => (t.1, t.2.1))).indexOf b <
          (specs.map (fun t => (t.1, t.2.1))).indexOf a :=
  c1_ordered_specs_topological demoSpecs (fun h => List.noConfusion h) (by decide)
    (by decide)
    ⟨fun n => if n = ("Person", "p1") then 0 else 1, by
      rintro a b ⟨hban, s, hmem, hdep⟩
      have hflat : flattenSpecs demoSpecs =
          [(("Person", "p1"), personSpec), (("Order", "o1"), orderSpec)] := rfl
      rw [hflat] at hmem
      rcases List.mem_cons.mp hmem with heq | hmem'
      · have h2 : s = personSpec := congrArg Prod.snd heq
        rw [h2] at hdep
        have h3 : xrefDeps personSpec.attr_map = [] := rfl
        rw [h3] at hdep
        exact absurd hdep (List.not_mem_nil b)
      · rcases List.mem_cons.mp hmem' with heq | h0
        · have h1 : a = ("Order", "o1") := congrArg Prod.fst heq
          have h2 : s = orderSpec := congrArg Prod.snd heq
          rw [h2] at hdep
          have h3 : xrefDeps orderSpec.attr_map = [("Person", "p1")] := rfl
          rw [h3] at hdep
          have hb : b = ("Person", "p1") := List.mem_singleton.mp hdep
          rw [h1, hb]
          decide
        · exact absurd h0 (List.not_mem_nil _)⟩

/-- Counterexample to C1 as stated: the empty specification set has an
acyclic (indeed empty) XReference dependency graph, yet importer
construction does not produce the (empty) ordered spec list — Python 2's
`reduce` over the empty dependency map raises `TypeError`, modelled as
`TopoError.emptyReduce`. -/
theorem c1_empty_set_counterexample :
    csvImporterSpecs ([] : List (String × List (String × RecordSpec))) =
      .error (.topo .emptyReduce) ∧
    AcyclicRel (SpecEdge (flattenSpecs ([] : List (String × List (String × RecordSpec))))) :=
  ⟨rfl, ⟨fun _ => 0, by
    rintro a b ⟨_, s, hmem, _⟩
    have h0 : flattenSpecs ([] : List (String × List (String × RecordSpec))) = [] := rfl
    rw [h0] at hmem
    exact absurd hmem (List.not_mem_nil _)⟩⟩

/-- Claim C2.  For every specification set whose dependency graph (after
self-reference removal) contains a cycle among `(table, instance)` nodes
(given as an edge chain from `n` through `cyc` back to `n`), importer
construction fails fatally with the `assert not data` of `_toposort`
(ETL.py lines 174-182), whose report carries the cyclic remainder: a
nonempty node set containing every node of the cycle.  Since the spec list
is never built, no input row can be processed, and the cyclic set is never
silently ordered. -/
theorem c2_cycle_detected
    (specsIn : List (String × List (String × RecordSpec)))
    (hnd : ((flattenSpecs specsIn).map (·.1)).Nodup)
    (n : Node) (cyc : List Node)
    (hchain : List.Chain (SpecEdge (flattenSpecs specsIn)) n (cyc ++ [n])) :
    ∃ r, csvImporterSpecs specsIn = .error (.topo (.cyclic r)) ∧
      keysOf r ≠ [] ∧ ∀ c ∈ n :: cyc, c ∈ keysOf r := by
  set flat := flattenSpecs specsIn with hflatdef
  set g' := addExtras (discardSelf (dependencyMap flat)) with hgdef
  have htrap : ∀ x ∈ n :: cyc, ∃ y ∈ n :: cyc, Edge g' x y := by
    intro x hx
    rcases cycle_trapped n cyc hchain x hx with ⟨y, hy, hr⟩
    exact ⟨y, hy, specEdge_to_graph flat x y hr⟩
  have hndg : (keysOf g').Nodup := by
    rw [hgdef]
    apply nodup_keys_addExtras
    rw [keysOf_discardSelf, keysOf_dependencyMap]
    exact hnd
  have hdmne : ¬ (dependencyMap flat).isEmpty = true := by
    rw [List.isEmpty_iff]
    intro h0
    rcases htrap n (List.mem_cons_self n cyc) with ⟨y, _, hEg⟩
    rw [hgdef, edge_addExtras_iff, edge_discardSelf_iff] at hEg
    rcases hEg.1 with ⟨ds, hmem, _⟩
    rw [h0] at hmem
    exact List.not_mem_nil _ hmem
  rcases topoLoopF_trapped g'.length g' (n :: cyc) (Nat.le_refl _) hndg (by simp) htrap
    with ⟨r, hr, hrk⟩
  refine ⟨r, ?_, ?_, hrk⟩
  · simp only [csvImporterSpecs]
    rw [← hflatdef, toposort, if_neg hdmne, ← hgdef, topoLoop, hr]
  · intro h0
    have hmem := hrk n (List.mem_cons_self n cyc)
    rw [h0] at hmem
    exact List.not_mem_nil _ hmem

/-- A two-spec cyclic configuration: instance `a` of table `T` references
instance `b` and vice versa. -/
def cycA : RecordSpec := { attr_map := [("x", .xreference "T" "b" "x")] }

/-- The second half of the cyclic configuration. -/
def cycB : RecordSpec := { attr_map := [("x", .xreference "T" "a" "x")] }

/-- The cyclic specification set used as the C2 witness. -/
def cycSpecs : List (String × List (String × RecordSpec)) :=
  [("T", [("a", cycA), ("b", cycB)])]

/-- Witness for C2 at the two-node cycle `(T,a) ↔ (T,b)`. -/
theorem c2_cycle_detected_witness :
    ∃ r, csvImporterSpecs cycSpecs = .error (.topo (.cyclic r)) ∧
      keysOf r ≠ [] ∧ ∀ c ∈ ("T", "a") :: [("T", "b")], c ∈ keysOf r := by
  have hmemA : ((("T", "a") : Node), cycA) ∈ flattenSpecs cycSpecs :=
    List.mem_cons_self _ _
  have hmemB : ((("T", "b") : Node), cycB) ∈ flattenSpecs cycSpecs :=
    List.mem_cons_of_mem _ (List.mem_cons_self _ _)
  have hedge1 : SpecEdge (flattenSpecs cycSpecs) ("T", "a") ("T", "b") :=
    ⟨by decide, cycA, hmemA, List.mem_singleton_self _⟩
  have hedge2 : SpecEdge (flattenSpecs cycSpecs) ("T", "b") ("T", "a") :=
    ⟨by decide, cycB, hmemB, List.mem_singleton_self _⟩
  exact c2_cycle_detected cycSpecs (by decide) ("T", "a") [("T", "b")]
    (List.Chain.cons hedge1 (List.Chain.cons hedge2 List.Chain.nil))

/-- Claim C6, amended.  If some spec's attribute map contains an XReference
to a `(table, instance)` pair with no declared RecordSpec (and the
dependency graph is otherwise acyclic, so that the toposort completes), the
Debugged.py importer constructor aborts with a message naming the missing
pair itself — its instance and its own table, not the referencing table —
and the missing reference is never silently skipped or healed.  (ETL.py
aborts at the same point with an uncaught `KeyError` carrying the missing
pair.) -/
theorem c6_missing_spec_aborts
    (specsIn : List (String × List (String × RecordSpec)))
    (hnd : ((flattenSpecs specsIn).map (·.1)).Nodup)
    (hacyc : AcyclicRel (SpecEdge (flattenSpecs specsIn)))
    (hmiss : ∃ ks ∈ flattenSpecs specsIn, ∃ d ∈ xrefDeps ks.2.attr_map,
      d ∉ (flattenSpecs specsIn).map (·.1)) :
    ∃ k : Node, csvImporterSpecsDebugged specsIn = .error (.missingSpec k.2 k.1) ∧
      k ∉ (flattenSpecs specsIn).map (·.1) ∧
      ∃ ks ∈ flattenSpecs specsIn, k ∈ xrefDeps ks.2.attr_map := by
  rcases hacyc with ⟨rank, hrank⟩
  set flat := flattenSpecs specsIn with hflatdef
  set g' := addExtras (discardSelf (dependencyMap flat)) with hgdef
  have hndg : (keysOf g').Nodup := by
    rw [hgdef]
    apply nodup_keys_addExtras
    rw [keysOf_discardSelf, keysOf_dependencyMap]
    exact hnd
  have hclosedg : ClosedG g' := hgdef ▸ closedG_addExtras _
  have hrankg : ∀ a b, Edge g' a b → rank b < rank a := by
    intro a b hE
    refine hrank a b (graph_edge_to_specEdge flat a b ?_)
    rwa [← hgdef]
  rcases topoLoopF_ok_of_rank g'.length g' rank (Nat.le_refl _) hclosedg hrankg with ⟨l, hl⟩
  have hperm : l.Perm (keysOf g') := topoLoopF_ok_perm g'.length g' l (Nat.le_refl _) hl
  rcases hmiss with ⟨ks, hks, d, hd, hnk⟩
  have hdextra : d ∈ extraItems (discardSelf (dependencyMap flat)) :=
    mem_extraItems_of_missing flat ks hks d hd hnk
  have hdl : d ∈ l := by
    apply hperm.mem_iff.mpr
    rw [hgdef, keysOf_addExtras]
    exact List.mem_append_right _ hdextra
  have hdnone : alookup flat d = Option.none := (alookup_eq_none_iff flat d).mpr hnk
  rcases attachSpecs_error (fun k => .missingSpec k.2 k.1) flat l ⟨d, hdl, hdnone⟩
    with ⟨k, herr, hkl, hknone⟩
  have hdmne : ¬ (dependencyMap flat).isEmpty = true := by
    rw [List.isEmpty_iff]
    intro h0
    have hlen := congrArg List.length h0
    simp only [dependencyMap, List.length_map, List.length_nil] at hlen
    rw [List.length_eq_zero.mp hlen] at hks
    exact List.not_mem_nil _ hks
  have hknotkey : k ∉ flat.map (·.1) := (alookup_eq_none_iff flat k).mp hknone
  refine ⟨k, ?_, hknotkey, ?_⟩
  · simp only [csvImporterSpecsDebugged]
    rw [← hflatdef, toposort, if_neg hdmne, ← hgdef, topoLoop, hl]
    exact herr
  · have hkg : k ∈ keysOf g' := hperm.mem_iff.mp hkl
    rw [hgdef, keysOf_addExtras, keysOf_discardSelf, keysOf_dependencyMap] at hkg
    rcases List.mem_append.mp hkg with h | h
    · exact absurd h hknotkey
    · have hall := (List.mem_filter.mp (List.mem_dedup.mp h)).1
      exact mem_allDeps_discardSelf flat k hall

/-- The C6 demonstration set: an `Order` spec referencing the undeclared
pair `(Person, p1)`. -/
def c6Specs : List (String × List (String × RecordSpec)) :=
  [("Order", [("o1", orderSpec)])]

/-- Counterexample to C6 as stated: for `c6Specs`, whose only spec lives in
table "Order" and references the undeclared pair `(Person, p1)`, the abort
message of Debugged.py names the missing instance "p1" together with the
missing pair's table "Person" — not the referencing table "Order", as the
claim asserts. -/
theorem c6_counterexample :
    csvImporterSpecsDebugged c6Specs = .error (.missingSpec "p1" "Person") ∧
    (flattenSpecs c6Specs).map (·.1) = [("Order", "o1")] ∧
    "Person" ≠ "Order" :=
  ⟨rfl, rfl, by decide⟩

/-- Witness for the amended C6 at `c6Specs`. -/
theorem c6_missing_spec_aborts_witness :
    ∃ k : Node, csvImporterSpecsDebugged c6Specs = .error (.missingSpec k.2 k.1) ∧
      k ∉ (flattenSpecs c6Specs).map (·.1) ∧
      ∃ ks ∈ flattenSpecs c6Specs, k ∈ xrefDeps ks.2.attr_map :=
  c6_missing_spec_aborts c6Specs (by decide)
    ⟨fun n => if n = ("Person", "p1") then 0 else 1, by
      rintro a b ⟨hban, s, hmem, hdep⟩
      have hflat : flattenSpecs c6Specs = [(("Order", "o1"), orderSpec)] := rfl
      rw [hflat] at hmem
      rcases List.mem_cons.mp hmem with heq | h0
      · have h1 : a = ("Order", "o1") := congrArg Prod.fst heq
        have h2 : s = orderSpec := congrArg Prod.snd heq
        rw [h2] at hdep
        have h3 : xrefDeps orderSpec.attr_map = [("Person", "p1")] := rfl
        rw [h3] at hdep
        have hb : b = ("Person", "p1") := List.mem_singleton.mp hdep
        rw [h1, hb]
        decide
      · exact absurd h0 (List.not_mem_nil _)⟩
    ⟨(("Order", "o1"), orderSpec), List.mem_cons_self _ _,
      ("Person", "p1"), List.mem_singleton_self _, by decide⟩

/-- Claim C5, demonstrating the code bug in Debugged.py.  On the §8
Person/Order scenario input — the sibling map already holding the `Person`
`p1` record — ETL.py's `XReference._read` returns the sibling's attribute
(`"1"`), and the full row materialization gives the Order record
`customer_id = "1"` as the claim states; but Debugged.py's
`XReference._read` reads `kw_args['user_data.txt']` instead of
`kw_args['existing_records']` and therefore raises
`KeyError('user_data.txt')` on the very same input, so under Debugged.py
every XReference evaluation fails. -/
theorem c5_xreference_read :
    Provider.read (.xreference "Person" "p1" "id") scenarioRow
      [(("Person", "p1"), personRec)] = .ok (PyVal.str "1") ∧
    Provider.readDebugged (.xreference "Person" "p1" "id") scenarioRow
      [(("Person", "p1"), personRec)] = .error (.keyError "user_data.txt") ∧
    records_for_row demoOrderedSpecs scenarioRow (PyVal.int 0) =
      .ok [personRec, ⟨"Order", PyVal.int 0, [("customer_id", PyVal.str "1")]⟩] ∧
    alookup [("customer_id", PyVal.str "1")] "customer_id" = some (PyVal.str "1") :=
  ⟨rfl, rfl, rfl, rfl⟩

lemma evalAttrs_error : ∀ (attr_map : List (String × Provider)) (row : Row)
    (existing : List (Node × DbRecord)),
    (∃ kp ∈ attr_map, ∃ e, Provider.read kp.2 row existing = .error e) →
    ∃ e, evalAttrs attr_map row existing = .error e
  | [], _, _, h => by simp at h
  | (k, p) :: rest, row, existing, h => by
    cases hp : Provider.read p row existing with
    | error e =>
      exact ⟨e, by simp only [evalAttrs, hp]⟩
    | ok v =>
      have hrest : ∃ kp ∈ rest, ∃ e, Provider.read kp.2 row existing = .error e := by
        rcases h with ⟨kp, hkp, e, he⟩
        rcases List.mem_cons.mp hkp with rfl | hm
        · rw [hp] at he
          exact Except.noConfusion he
        · exact ⟨kp, hm, e, he⟩
      rcases evalAttrs_error rest row existing hrest with ⟨e, he⟩
      exact ⟨e, by simp only [evalAttrs, hp, he]⟩

/-- Claim C9.  `DbRecord.import_attributes` (ETL.py lines 126-136) is
atomic with respect to the record's `attributes` dict: the `imported` dict
comprehension evaluates every provider before `self.attributes.update`
runs, so if evaluating any provider raises — a missing column, an
unresolvable sibling reference — the record is left unchanged (for a
freshly constructed record, still with empty `attributes`) and the error
propagates. -/
theorem c9_import_attributes_atomic (rec : DbRecord)
    (attr_map : List (String × Provider)) (existing : List (Node × DbRecord))
    (row : Row)
    (hfail : ∃ kp ∈ attr_map, ∃ e, Provider.read kp.2 row existing = .error e) :
    ∃ e, DbRecord.import_attributes rec attr_map existing row = (rec, some e) := by
  rcases evalAttrs_error attr_map row existing hfail with ⟨e, he⟩
  exact ⟨e, by simp only [DbRecord.import_attributes, he]⟩

/-- Witness for C9: a fresh record whose single provider reads a column
absent from the row; the returned record still has empty attributes. -/
theorem c9_import_attributes_atomic_witness :
    ∃ e, DbRecord.import_attributes ⟨"T", PyVal.int 0, []⟩
      [("a", Provider.columnValue "missing" Option.none)] [] [] =
      (⟨"T", PyVal.int 0, []⟩, some e) :=
  c9_import_attributes_atomic ⟨"T", PyVal.int 0, []⟩
    [("a", Provider.columnValue "missing" Option.none)] [] []
    ⟨("a", Provider.columnValue "missing" Option.none), List.mem_singleton_self _,
      .keyError "missing", rfl⟩

/-- Claim C10.  The row materializer's skip test is the identity comparison
`spec.condition(row) is False` (ETL.py line 49): a spec is skipped only when
the condition returns the boolean `False` itself.  For any other return
value — including the falsy values `0`, `None`, and `""` — a record is
still produced (here: successfully imported) and registered in the sibling
map. -/
theorem c10_skip_only_identity_false (row : Row) (row_id : PyVal)
    (st : List DbRecord × List (Node × DbRecord)) (t i : String) (s : RecordSpec)
    (rec : DbRecord)
    (hcond : s.condition row ≠ PyVal.bool false)
    (hok : DbRecord.import_attributes ⟨t, row_id, []⟩ s.attr_map st.2 row =
      (rec, Option.none)) :
    processSpec row row_id st (t, i, s) =
      .ok (st.1 ++ [rec], st.2 ++ [((t, i), rec)]) := by
  simp only [processSpec]
  rw [if_neg hcond, hok]

/-- A spec whose condition returns the falsy non-`False` value `0`. -/
def falsySpec : RecordSpec :=
  { attr_map := [("v", .constValue (.str "1"))], condition := fun _ => PyVal.int 0 }

/-- Witness for C10: a condition returning the integer `0` (falsy in
Python, but not the object `False`) does not suppress the record. -/
theorem c10_skip_only_identity_false_witness :
    processSpec [] (PyVal.int 0) ([], []) ("T", "i1", falsySpec) =
      .ok ([⟨"T", PyVal.int 0, [("v", PyVal.str "1")]⟩],
        [(("T", "i1"), ⟨"T", PyVal.int 0, [("v", PyVal.str "1")]⟩)]) :=
  c10_skip_only_identity_false [] (PyVal.int 0) ([], []) "T" "i1" falsySpec
    ⟨"T", PyVal.int 0, [("v", PyVal.str "1")]⟩ (by decide) rfl

/-- Claim C3.  A spec whose condition evaluates to `False` on a row is
skipped entirely for that row (ETL.py lines 45-60): the loop step leaves
the accumulated record list and the sibling map untouched, and consequently
the whole per-row run is identical to the run over only the non-skipped
specs — no record is produced for the skipped spec and no sibling-map entry
is added under its `(table, instance)` key. -/
theorem c3_condition_false_skips (specs : List (String × String × RecordSpec))
    (row : Row) (row_id : PyVal) :
    (∀ st tis, tis.2.2.condition row = PyVal.bool false →
      processSpec row row_id st tis = .ok st) ∧
    ∀ st, runSpecs specs row row_id st =
      runSpecs (specs.filter (fun tis => tis.2.2.condition row ≠ PyVal.bool false))
        row row_id st := by
  constructor
  · intro st tis hcond
    simp only [processSpec, if_pos hcond]
  · induction specs with
    | nil => intro st; rfl
    | cons tis rest ih =>
      intro st
      by_cases hc : tis.2.2.condition row = PyVal.bool false
      · have hskip : processSpec row row_id st tis = .ok st := by
          simp only [processSpec, if_pos hc]
        have hfil : (tis :: rest).filter
            (fun tis => tis.2.2.condition row ≠ PyVal.bool false) =
            rest.filter (fun tis => tis.2.2.condition row ≠ PyVal.bool false) := by
          simp [List.filter_cons, hc]
        rw [hfil, runSpecs, hskip]
        exact ih st
      · have hfil : (tis :: rest).filter
            (fun tis => tis.2.2.condition row ≠ PyVal.bool false) =
            tis :: rest.filter (fun tis => tis.2.2.condition row ≠ PyVal.bool false) := by
          simp [List.filter_cons, hc]
        rw [hfil, runSpecs, runSpecs]
        cases hp : processSpec row row_id st tis with
        | ok st' => exact ih st'
        | error e => rfl

/-- A spec whose condition is the boolean `False` itself. -/
def skipSpec : RecordSpec :=
  { attr_map := [("v", .constValue (.str "1"))], condition := fun _ => PyVal.bool false }

/-- Witness for C3: processing a `False`-condition spec leaves the state
untouched. -/
theorem c3_condition_false_skips_witness :
    processSpec [] (PyVal.int 0) ([], []) ("T", "i1", skipSpec) = .ok ([], []) :=
  (c3_condition_false_skips [("T", "i1", skipSpec)] [] (PyVal.int 0)).1
    ([], []) ("T", "i1", skipSpec) rfl

/-- On an all-string record, `insert_statement` succeeds, returning the
warnings computed by `string_exp` and the assembled statement.  Shared
backbone of the serializer facts below. -/
lemma insert_statement_ok (rec : DbRecord) (vals : List String)
    (hv : rec.attributes.map (·.2) = vals.map PyVal.str) :
    DbRecord.insert_statement rec = .ok
      (rec.attributes.filterMap (fun kv =>
        match kv.2 with
        | PyVal.str s => if string_exp_match s then some (kv.1, s) else Option.none
        | _ => Option.none),
      "INSERT INTO " ++ rec.table_name ++
        (" (" ++ String.intercalate ", " (rec.attributes.map (·.1)) ++ ")") ++
        " VALUES" ++ (" (" ++ String.intercalate ", " vals ++ ")") ++ ";\n") := by
  have hoff : rec.attributes.filter (fun kv => !(isStrVal kv.2)) = [] := by
    rw [List.filter_eq_nil_iff]
    intro kv hkv
    have hmem : kv.2 ∈ rec.attributes.map (·.2) := List.mem_map.mpr ⟨kv, hkv, rfl⟩
    rw [hv] at hmem
    rcases List.mem_map.mp hmem with ⟨s, _, heq⟩
    rw [← heq]
    simp [isStrVal]
  have hvals : rec.attributes.map (fun kv => strVal kv.2) = vals := by
    have hcomp : rec.attributes.map (fun kv => strVal kv.2) =
        (rec.attributes.map (·.2)).map strVal := by
      rw [List.map_map]
      rfl
    rw [hcomp, hv, List.map_map]
    have : (strVal ∘ PyVal.str) = id := by
      funext s
      rfl
    rw [this, List.map_id]
  simp only [DbRecord.insert_statement, hoff, hvals, List.isEmpty_nil, if_true]

/-- Claim C7.  For every record all of whose attribute values are strings,
`insert_statement` (ETL.py lines 138-159) succeeds — the unquoted-text
warnings are non-fatal — and returns
`'INSERT INTO <table> (<attr1>, ...)' + ' VALUES' + ' (<val1>, ...)' + ';\n'`
with attributes listed in the record's insertion order. -/
theorem c7_insert_statement_format (rec : DbRecord) (vals : List String)
    (hv : rec.attributes.map (·.2) = vals.map PyVal.str) :
    ∃ ws, DbRecord.insert_statement rec = .ok (ws,
      "INSERT INTO " ++ rec.table_name ++
        (" (" ++ String.intercalate ", " (rec.attributes.map (·.1)) ++ ")") ++
        " VALUES" ++ (" (" ++ String.intercalate ", " vals ++ ")") ++ ";\n") :=
  ⟨_, insert_statement_ok rec vals hv⟩

/-- The Person record as actually built by `import_attributes` from the §8
scenario row. -/
def personRecBuilt : DbRecord :=
  (DbRecord.import_attributes ⟨"Person", PyVal.int 0, []⟩ personSpec.attr_map []
    scenarioRow).1

/-- Witness for C7 at the §8 scenario: the materialized Person record
serializes to exactly the claimed statement (with the non-fatal warning
flagging `Alice`). -/
theorem c7_insert_statement_format_witness :
    personRecBuilt.attributes.map (·.2) = ["1", "Alice", "30"].map PyVal.str ∧
    ∃ ws, DbRecord.insert_statement personRecBuilt = .ok (ws,
      "INSERT INTO Person (id, name, age) VALUES (1, Alice, 30);\n") :=
  ⟨rfl, c7_insert_statement_format personRecBuilt ["1", "Alice", "30"] rfl⟩

lemma dotStarLetter_eq_takeWhile : ∀ l : List Char,
    dotStarLetter l = (l.takeWhile (fun c => c ≠ '\n')).any Char.isAlpha
  | [] => rfl
  | c :: cs => by
    by_cases hc : c = '\n'
    · subst hc
      simp [dotStarLetter, List.takeWhile_cons]
    · by_cases ha : c.isAlpha
      · simp [dotStarLetter, List.takeWhile_cons, hc, ha]
      · simp [dotStarLetter, List.takeWhile_cons, hc, ha,
          dotStarLetter_eq_takeWhile cs]

lemma string_exp_match_iff (s : String) :
    string_exp_match s = true ↔
      ¬ startsQuote s.data = true ∧
      (∀ t ∈ sql_fun, ¬ ciStartsWith t.data s.data = true) ∧
      (s.data.takeWhile (fun c => c ≠ '\n')).any Char.isAlpha = true := by
  rw [string_exp_match, dotStarLetter_eq_takeWhile]
  simp only [Bool.and_eq_true, Bool.not_eq_true', Bool.not_eq_true]
  constructor
  · rintro ⟨⟨hq, htok⟩, hletter⟩
    refine ⟨by simp [hq], ?_, hletter⟩
    intro t ht
    have := List.any_eq_false.mp htok t ht
    simp [this]
  · rintro ⟨hq, htok, hletter⟩
    refine ⟨⟨by simpa using hq, ?_⟩, hletter⟩
    rw [List.any_eq_false]
    intro t ht
    have := htok t ht
    simpa using this

/-- Claim C8, amended.  During `insert_statement`'s sanity check a string
attribute value is flagged with a warning exactly when it does not start
with a quote character, does not start (case-insensitively) with one of the
fixed allow-list of SQL keyword/function tokens, and contains an ASCII
letter of either case before any newline — `re.IGNORECASE` makes the
`[a-z]` class of `string_exp` match uppercase letters too, which is where
the original claim's "contains a lowercase letter" fails.  The warnings are
non-fatal: the statement is still produced, so flagged values never cause
an abort by themselves. -/
theorem c8_warning_heuristic (rec : DbRecord) (vals : List String)
    (hv : rec.attributes.map (·.2) = vals.map PyVal.str) :
    ∃ ws sql, DbRecord.insert_statement rec = .ok (ws, sql) ∧
      ∀ k s, ((k, s) ∈ ws ↔ (k, PyVal.str s) ∈ rec.attributes ∧
        ¬ startsQuote s.data = true ∧
        (∀ t ∈ sql_fun, ¬ ciStartsWith t.data s.data = true) ∧
        (s.data.takeWhile (fun c => c ≠ '\n')).any Char.isAlpha = true) := by
  refine ⟨_, _, insert_statement_ok rec vals hv, ?_⟩
  intro k s
  rw [List.mem_filterMap]
  constructor
  · rintro ⟨kv, hkv, hf⟩
    rcases kv with ⟨k', v⟩
    cases v with
    | str s' =>
      simp only at hf
      by_cases hm : string_exp_match s'
      · rw [if_pos hm] at hf
        injection hf with h1
        have hk : k' = k := congrArg Prod.fst h1
        have hs : s' = s := congrArg Prod.snd h1
        subst hk
        subst hs
        rcases (string_exp_match_iff s').mp hm with ⟨hq, htok, hl⟩
        exact ⟨hkv, hq, htok, hl⟩
      · rw [if_neg hm] at hf
        exact Option.noConfusion hf
    | int n => exact Option.noConfusion hf
    | bool b => exact Option.noConfusion hf
    | none => exact Option.noConfusion hf
  · rintro ⟨hkv, hq, htok, hl⟩
    refine ⟨(k, PyVal.str s), hkv, ?_⟩
    simp only
    rw [if_pos ((string_exp_match_iff s).mpr ⟨hq, htok, hl⟩)]

/-- The record used as the C8 witness: one all-uppercase flaggable value
and one digit value. -/
def rec8 : DbRecord := ⟨"T", PyVal.int 0, [("x", PyVal.str "XYZ"), ("y", PyVal.str "5")]⟩

/-- Witness for the amended C8 at `rec8`. -/
theorem c8_warning_heuristic_witness :
    rec8.attributes.map (·.2) = ["XYZ", "5"].map PyVal.str ∧
    ∃ ws sql, DbRecord.insert_statement rec8 = .ok (ws, sql) ∧
      ∀ k s, ((k, s) ∈ ws ↔ (k, PyVal.str s) ∈ rec8.attributes ∧
        ¬ startsQuote s.data = true ∧
        (∀ t ∈ sql_fun, ¬ ciStartsWith t.data s.data = true) ∧
        (s.data.takeWhile (fun c => c ≠ '\n')).any Char.isAlpha = true) :=
  ⟨rfl, c8_warning_heuristic rec8 ["XYZ", "5"] rfl⟩

/-- The heuristic exactly as the claim states it: the value "contains a
lowercase letter" (its other two conditions as in the code). -/
def claimedWarnCond (s : String) : Bool :=
  !(startsQuote s.data) && !(sql_fun.any (fun t => ciStartsWith t.data s.data)) &&
    s.data.any (fun c => c.isLower)

/-- Counterexample to C8 as stated: the value `"XYZ"` contains no lowercase
letter, so by the claim it must not be flagged; but `insert_statement`
does flag it (first component of the returned pair) because the regex is
compiled with `re.IGNORECASE` — and the run still continues, producing the
statement. -/
theorem c8_counterexample :
    DbRecord.insert_statement ⟨"T", PyVal.int 0, [("x", PyVal.str "XYZ")]⟩ =
      .ok ([("x", "XYZ")], "INSERT INTO T (x) VALUES (XYZ);\n") ∧
    claimedWarnCond "XYZ" = false :=
  ⟨rfl, by decide⟩

lemma runSpecs_append : ∀ (l₁ l₂ : List (String × String × RecordSpec)) (row : Row)
    (rid : PyVal) (st : List DbRecord × List (Node × DbRecord)),
    runSpecs (l₁ ++ l₂) row rid st =
      match runSpecs l₁ row rid st with
      | .ok st' => runSpecs l₂ row rid st'
      | .error e => .error e
  | [], _, _, _, _ => rfl
  | tis :: rest, l₂, row, rid, st => by
    simp only [List.cons_append, runSpecs]
    cases hp : processSpec row rid st tis with
    | ok st' => exact runSpecs_append rest l₂ row rid st'
    | error e => rfl

lemma nodup_key_positions (specs : List (String × String × RecordSpec))
    (hnd : (specs.map (fun t => (t.1, t.2.1))).Nodup) (j k : Nat)
    (tis tis' : String × String × RecordSpec)
    (hj : specs[j]? = some tis) (hk : specs[k]? = some tis')
    (hkey : (tis.1, tis.2.1) = (tis'.1, tis'.2.1)) : j = k := by
  have hlen : j < specs.length := by
    by_contra hge
    rw [List.getElem?_eq_none (Nat.le_of_not_lt hge)] at hj
    exact Option.noConfusion hj
  have hmj : (specs.map (fun t => (t.1, t.2.1)))[j]? = some (tis.1, tis.2.1) := by
    rw [List.getElem?_map, hj]
    rfl
  have hmk : (specs.map (fun t => (t.1, t.2.1)))[k]? = some (tis'.1, tis'.2.1) := by
    rw [List.getElem?_map, hk]
    rfl
  apply List.getElem?_inj (by rw [List.length_map]; exact hlen) hnd
  rw [hmj, hmk, hkey]

/-- Claim C4.  Within one row's materialization (ETL.py lines 45-60) the
record created for a spec is registered into the sibling map only after its
`import_attributes` has run to completion: for every prefix of the ordered
spec list, (i) a `(table, instance)` key is visible in the sibling map
exactly when a spec with that key and a passing condition was evaluated
strictly earlier in the per-row evaluation order, and (ii) the record found
under that key is precisely the completed record whose attributes were
imported against the sibling map as it stood when that earlier spec ran —
never a partial or out-of-order registration. -/
theorem c4_sibling_visibility (specs : List (String × String × RecordSpec))
    (row : Row) (row_id : PyVal)
    (hnd : (specs.map (fun t => (t.1, t.2.1))).Nodup) :
    ∀ (k : Nat) (recs : List DbRecord) (xm : List (Node × DbRecord)),
    runSpecs (specs.take k) row row_id ([], []) = .ok (recs, xm) →
    ((∀ key : Node, (alookup xm key).isSome = true ↔
      ∃ j, j < k ∧ ∃ tis, specs[j]? = some tis ∧ (tis.1, tis.2.1) = key ∧
        tis.2.2.condition row ≠ PyVal.bool false) ∧
    (∀ j tis, j < k → specs[j]? = some tis →
      tis.2.2.condition row ≠ PyVal.bool false →
      ∃ recs' xm' rec,
        runSpecs (specs.take j) row row_id ([], []) = .ok (recs', xm') ∧
        DbRecord.import_attributes ⟨tis.1, row_id, []⟩ tis.2.2.attr_map xm' row =
          (rec, Option.none) ∧
        alookup xm (tis.1, tis.2.1) = some rec)) := by
  intro k
  induction k with
  | zero =>
    intro recs xm hrun
    simp only [List.take_zero, runSpecs] at hrun
    injection hrun with hrun
    have hrecs : [] = recs := congrArg Prod.fst hrun
    have hxm : ([] : List (Node × DbRecord)) = xm := congrArg Prod.snd hrun
    subst hrecs
    subst hxm
    constructor
    · intro key
      constructor
      · intro h
        simp [alookup] at h
      · rintro ⟨j, hj, _⟩
        omega
    · intro j tis hj
      omega
  | succ k ih =>
    intro recs xm hrun
    cases hk : specs[k]? with
    | none =>
      have htake : specs.take (k + 1) = specs.take k := by
        rw [List.take_succ, hk]
        simp
      rw [htake] at hrun
      rcases ih recs xm hrun with ⟨hvis, hreg⟩
      constructor
      · intro key
        rw [hvis key]
        constructor
        · rintro ⟨j, hj, w⟩
          exact ⟨j, by omega, w⟩
        · rintro ⟨j, hj, tis, hget, w⟩
          by_cases hjk : j = k
          · subst hjk
            rw [hk] at hget
            exact Option.noConfusion hget
          · exact ⟨j, by omega, tis, hget, w⟩
      · intro j tis hj hget hcond
        by_cases hjk : j = k
        · subst hjk
          rw [hk] at hget
          exact Option.noConfusion hget
        · exact hreg j tis (by omega) hget hcond
    | some tis =>
      have htake : specs.take (k + 1) = specs.take k ++ [tis] := by
        rw [List.take_succ, hk]
        rfl
      rw [htake, runSpecs_append] at hrun
      cases hpre : runSpecs (specs.take k) row row_id ([], []) with
      | error e =>
        rw [hpre] at hrun
        exact Except.noConfusion hrun
      | ok st' =>
        rw [hpre] at hrun
        rcases st' with ⟨recs', xm'⟩
        rcases ih recs' xm' hpre with ⟨hvis, hreg⟩
        simp only [runSpecs] at hrun
        by_cases hc : tis.2.2.condition row = PyVal.bool false
        · have hps : processSpec row row_id (recs', xm') tis = .ok (recs', xm') := by
            simp only [processSpec, if_pos hc]
          rw [hps] at hrun
          injection hrun with hrun
          cases hrun
          constructor
          · intro key
            rw [hvis key]
            constructor
            · rintro ⟨j, hj, w⟩
              exact ⟨j, by omega, w⟩
            · rintro ⟨j, hj, tis', hget, hkey, hcond'⟩
              by_cases hjk : j = k
              · subst hjk
                rw [hk] at hget
                injection hget with hget
                subst hget
                exact absurd hc hcond'
              · exact ⟨j, by omega, tis', hget, hkey, hcond'⟩
          · intro j tis' hj hget hcond'
            by_cases hjk : j = k
            · subst hjk
              rw [hk] at hget
              injection hget with hget
              subst hget
              exact absurd hc hcond'
            · exact hreg j tis' (by omega) hget hcond'
        · have hps : processSpec row row_id (recs', xm') tis =
              match DbRecord.import_attributes ⟨tis.1, row_id, []⟩ tis.2.2.attr_map
                  xm' row with
              | (record, Option.none) =>
                .ok (recs' ++ [record], xm' ++ [((tis.1, tis.2.1), record)])
              | (_, some e) => .error e := by
            simp only [processSpec, if_neg hc]
          cases himp : DbRecord.import_attributes ⟨tis.1, row_id, []⟩ tis.2.2.attr_map
              xm' row with
          | mk rec oerr =>
            cases oerr with
            | some e =>
              rw [hps, himp] at hrun
              exact Except.noConfusion hrun
            | none =>
              rw [hps, himp] at hrun
              injection hrun with hrun
              cases hrun
              constructor
              · intro key
                by_cases hkey : (alookup xm' key).isSome = true
                · rw [alookup_append_left _ _ _ hkey]
                  constructor
                  · intro _
                    rcases (hvis key).mp hkey with ⟨j, hj, w⟩
                    exact ⟨j, by omega, w⟩
                  · intro _
                    exact hkey
                · have hnone : alookup xm' key = Option.none := by
                    cases halo : alookup xm' key with
                    | none => rfl
                    | some v =>
                      rw [halo] at hkey
                      simp at hkey
                  rw [alookup_append_right _ _ _ hnone]
                  by_cases hkk : ((tis.1, tis.2.1) : Node) = key
                  · constructor
                    · intro _
                      exact ⟨k, by omega, tis, hk, hkk, hc⟩
                    · intro _
                      simp [alookup, hkk]
                  · constructor
                    · intro habs
                      rw [alookup, if_neg hkk] at habs
                      simp [alookup] at habs
                    · rintro ⟨j, hj, tis', hget, hkey', hcond'⟩
                      by_cases hjk : j = k
                      · subst hjk
                        rw [hk] at hget
                        injection hget with hget
                        subst hget
                        exact absurd hkey' hkk
                      · have hsome := (hvis key).mpr ⟨j, by omega, tis', hget, hkey', hcond'⟩
                        rw [hnone] at hsome
                        simp at hsome
              · intro j tis' hj hget hcond'
                by_cases hjk : j = k
                · subst hjk
                  rw [hk] at hget
                  injection hget with hget
                  subst hget
                  refine ⟨recs', xm', rec, hpre, himp, ?_⟩
                  have hnone : alookup xm' (tis.1, tis.2.1) = Option.none := by
                    cases halo : alookup xm' (tis.1, tis.2.1) with
                    | none => rfl
                    | some v =>
                      have hsome : (alookup xm' (tis.1, tis.2.1)).isSome = true := by
                        rw [halo]
                        rfl
                      rcases (hvis _).mp hsome with ⟨j', hj', tis'', hget'', hkey'', _⟩
                      have hj'j : j' = j :=
                        nodup_key_positions specs hnd j' j tis'' tis hget'' hk hkey''
                      omega
                  rw [alookup_append_right _ _ _ hnone]
                  simp [alookup]
                · rcases hreg j tis' (by omega) hget hcond' with
                    ⟨recs'', xm'', rec', h1, h2, h3⟩
                  refine ⟨recs'', xm'', rec', h1, h2, ?_⟩
                  have hsome : (alookup xm' (tis'.1, tis'.2.1)).isSome = true := by
                    rw [h3]
                    rfl
                  rw [alookup_append_left _ _ _ hsome]
                  exact h3

/-- The Order record materialized in the §8 scenario. -/
def orderRec : DbRecord := ⟨"Order", PyVal.int 0, [("customer_id", PyVal.str "1")]⟩

/-- The §8 scenario sibling map after both specs have run. -/
def demoXm : List (Node × DbRecord) :=
  [(("Person", "p1"), personRec), (("Order", "o1"), orderRec)]

/-- Witness for C4 at the §8 scenario, after both ordered specs have run
(`k = 2`). -/
theorem c4_sibling_visibility_witness :
    (∀ key : Node, (alookup demoXm key).isSome = true ↔
      ∃ j, j < 2 ∧ ∃ tis, demoOrderedSpecs[j]? = some tis ∧ (tis.1, tis.2.1) = key ∧
        tis.2.2.condition scenarioRow ≠ PyVal.bool false) ∧
    (∀ j tis, j < 2 → demoOrderedSpecs[j]? = some tis →
      tis.2.2.condition scenarioRow ≠ PyVal.bool false →
      ∃ recs' xm' rec,
        runSpecs (demoOrderedSpecs.take j) scenarioRow (PyVal.int 0) ([], []) =
          .ok (recs', xm') ∧
        DbRecord.import_attributes ⟨tis.1, PyVal.int 0, []⟩ tis.2.2.attr_map xm'
          scenarioRow = (rec, Option.none) ∧
        alookup demoXm (tis.1, tis.2.1) = some rec) :=
  c4_sibling_visibility demoOrderedSpecs scenarioRow (PyVal.int 0) (by decide) 2
    [personRec, orderRec] demoXm rfl

end ETL
